import Mathlib

/-!
Verification of the nomic ABCI adapter (`src/chain/abci_server.rs`).

The adapter binds a deterministic state machine to an ABCI-style consensus
driver.  This file shallowly embeds the adapter: the abstract key-value store
becomes a function from byte keys to optional byte values, the five lifecycle
callbacks become pure functions threading the store explicitly, and the
external execution engine (`super::state_machine::{initialize, run}`, not part
of the audited source) is a parameter of each lifecycle function.

Rust failure modes are kept apart: a returned `Err` (from `bail!` or `?`)
becomes `Outcome.err`, while a panic (`unwrap`, `expect`,
`copy_from_slice` on a mismatched length) becomes `Outcome.panic`.
-/

namespace NomicAbci

/-- Byte strings (Rust `Vec<u8>`), modelled as lists of naturals; the byte
invariant (every entry `< 256`) is maintained by all producers in the source. -/
abbrev Bytes := List Nat

/-- Result of a fallible call: a returned value, a returned error (`bail!` or a
propagated `Err`), or a process abort (`unwrap` / `expect` /
`copy_from_slice` panic). -/
inductive Outcome (α : Type) where
  | ok (a : α)
  | err (msg : String)
  | panic (msg : String)
deriving DecidableEq

/-- Did the call return successfully? -/
def Outcome.isOk {α : Type} : Outcome α → Bool
  | .ok _ => true
  | _ => false

/-- Did the call return an error value? -/
def Outcome.isErr {α : Type} : Outcome α → Bool
  | .err _ => true
  | _ => false

/-- Did the call abort the process with a panic? -/
def Outcome.isPanic {α : Type} : Outcome α → Bool
  | .panic _ => true
  | _ => false

/-- The abstract ordered key-value store (`orga::Store`): `get` and `put`.
Store-level I/O failures are out of scope, so `get` is total. -/
abbrev StoreMap := Bytes → Option Bytes

/-- Read a key from the store (`store.get`). -/
def getStore (s : StoreMap) (k : Bytes) : Option Bytes := s k

/-- Write a key into the store (`store.put`), overwriting unconditionally. -/
def putStore (s : StoreMap) (k v : Bytes) : StoreMap :=
  fun k2 => if k2 = k then some v else s k2

/-- A store with no entries. -/
def emptyStore : StoreMap := fun _ => none

/-- The literal key `b"height"` (bytes of the ASCII string). -/
def heightKey : Bytes := [104, 101, 105, 103, 104, 116]

/-- The literal key `b"validators"` (bytes of the ASCII string). -/
def validatorsKey : Bytes := [118, 97, 108, 105, 100, 97, 116, 111, 114, 115]

/-- Strict lexicographic order on byte strings: the `Ord` instance of
`Vec<u8>` used by `BTreeMap` (element-wise, a proper prefix sorts first). -/
def bytesLt : Bytes → Bytes → Bool
  | [], [] => false
  | [], _ :: _ => true
  | _ :: _, [] => false
  | a :: as, b :: bs => if a < b then true else if b < a then false else bytesLt as bs

/-- The validator set `BTreeMap<Vec<u8>, u64>`, modelled as its ascending-key
entry list (which is exactly the map's iteration order). -/
abbrev Validators := List (Bytes × Nat)

/-- `BTreeMap::insert`: place the binding at its ordered position, replacing
an existing binding of the same key. -/
def vsInsert (k : Bytes) (v : Nat) : Validators → Validators
  | [] => [(k, v)]
  | (k2, v2) :: rest =>
    if bytesLt k k2 then (k, v) :: (k2, v2) :: rest
    else if k = k2 then (k, v) :: rest
    else (k2, v2) :: vsInsert k v rest

/-- `BTreeMap::get`: first (hence, in a sorted list, only) binding of a key. -/
def vsLookup (k : Bytes) : Validators → Option Nat
  | [] => none
  | (k2, v2) :: rest => if k = k2 then some v2 else vsLookup k rest

/-- Little-endian fixed-width encoding of an integer (`bincode`'s fixint
encoding for `u64`/`usize`), width in bytes. -/
def leBytes : Nat → Nat → Bytes
  | 0, _ => []
  | n + 1, x => x % 256 :: leBytes n (x / 256)

/-- Little-endian decoding, inverse of `leBytes` on its range. -/
def leDecode : Bytes → Nat
  | [] => 0
  | b :: rest => b + 256 * leDecode rest

/-- Big-endian fixed-width encoding (`u64::to_be_bytes` / `i64::to_be_bytes`
after the unsigned reinterpretation), width in bytes. -/
def beBytes : Nat → Nat → Bytes
  | 0, _ => []
  | n + 1, x => beBytes n (x / 256) ++ [x % 256]

/-- Big-endian decoding of 8 bytes (`u64::from_be_bytes`). -/
def beDecode (bs : Bytes) : Nat := bs.foldl (fun acc b => acc * 256 + b) 0

/-- bincode encoding of one map entry: `u64` little-endian key length, the raw
key bytes, then the `u64` little-endian power. -/
def serializeEntry (e : Bytes × Nat) : Bytes :=
  leBytes 8 e.1.length ++ e.1 ++ leBytes 8 e.2

/-- `bincode::serialize` of a `BTreeMap<Vec<u8>, u64>`: `u64` little-endian
entry count followed by the entries in ascending key order. -/
def vsSerialize (vs : Validators) : Bytes :=
  leBytes 8 vs.length ++ (vs.map serializeEntry).flatten

/-- Consume 8 bytes and decode them as a little-endian `u64`. -/
def readLE8 (bs : Bytes) : Option (Nat × Bytes) :=
  if 8 ≤ bs.length then some (leDecode (bs.take 8), bs.drop 8) else none

/-- Consume exactly `n` raw bytes. -/
def readRaw (n : Nat) (bs : Bytes) : Option (Bytes × Bytes) :=
  if n ≤ bs.length then some (bs.take n, bs.drop n) else none

/-- Parse `n` serialized map entries, returning them in stream order together
with the unconsumed remainder. -/
def parseEntries : Nat → Bytes → Option (List (Bytes × Nat) × Bytes)
  | 0, bs => some ([], bs)
  | n + 1, bs =>
    match readLE8 bs with
    | none => none
    | some (klen, bs1) =>
      match readRaw klen bs1 with
      | none => none
      | some (k, bs2) =>
        match readLE8 bs2 with
        | none => none
        | some (p, bs3) =>
          match parseEntries n bs3 with
          | none => none
          | some (rest, bs4) => some ((k, p) :: rest, bs4)

/-- `bincode::deserialize` into a `BTreeMap<Vec<u8>, u64>`: read the entry
count, parse that many entries, and insert them in stream order (serde's map
visitor); trailing bytes are permitted by the legacy `bincode` functions. -/
def vsDeserialize (bs : Bytes) : Option Validators :=
  match readLE8 bs with
  | none => none
  | some (n, rest) =>
    match parseEntries n rest with
    | none => none
    | some (entries, _) =>
      some (entries.foldl (fun m e => vsInsert e.1 e.2 m) [])

/-- Reinterpretation of a `u64` value as an `i64` (the `power as i64` cast in
`end_block`): values at or above `2^63` wrap to negatives. -/
def u64AsI64 (p : Nat) : Int :=
  if p < 2 ^ 63 then (p : Int) else (p : Int) - 2 ^ 64

/-- Reinterpretation of an `i64` value as a `u64` (the `as u64` casts applied
to genesis powers and the block height). -/
def i64ToU64 (x : Int) : Nat := (x % (2 : Int) ^ 64).toNat

/-- Embedding of `read_height`: `store.get(b"height")?.unwrap()` panics when
the entry is absent, `copy_from_slice` panics unless the value is exactly 8
bytes, and the bytes decode big-endian. -/
def read_height (s : StoreMap) : Outcome Nat :=
  match getStore s heightKey with
  | none => .panic ("called Option::unwrap on a None value")
  | some bs =>
    if bs.length = 8 then .ok (beDecode bs)
    else .panic ("source slice length does not match destination slice length")

/-- Embedding of `write_validators`: serialize the map and overwrite the
`b"validators"` entry. -/
def write_validators (s : StoreMap) (validators : Validators) : StoreMap :=
  putStore s validatorsKey (vsSerialize validators)

/-- Embedding of `read_validators`: `expect` panics when the entry is absent
or the bytes fail to deserialize. -/
def read_validators (s : StoreMap) : Outcome Validators :=
  match getStore s validatorsKey with
  | none => .panic ("Validator map was not written to store")
  | some bs =>
    match vsDeserialize bs with
    | none => .panic ("Failed to deserialize validator map")
    | some vs => .ok vs

/-- Block header as consumed by the adapter. The Tendermint header carries
further fields, but the adapter itself reads only `height` (an `i64`); the
full header is forwarded opaquely to the execution engine inside the action. -/
structure BlockHeader where
  height : Int
deriving DecidableEq

/-- Modelled from the spec: the `Action` tagged union consumed by the
execution engine (defined in the repository outside the audited source), with
variants `Transaction(tx)` and `BeginBlock(header)`. -/
inductive Action (Tx : Type) where
  | transaction (tx : Tx)
  | beginBlock (header : BlockHeader)

/-- Signature of the external execution engine's `run`: it may mutate the
store and the validator set in place (mutations persist even when it returns
an error), so the embedding returns both alongside the result. -/
abbrev RunFn (Tx : Type) :=
  StoreMap → Action Tx → Validators → Nat → Except String Unit × StoreMap × Validators

/-- Signature of the external execution engine's one-time `initialize` hook:
it may mutate the store (mutations persist even on error). -/
abbrev InitFn := StoreMap → Except String Unit × StoreMap

/-- One genesis validator entry from `RequestInitChain` (`get_pub_key` data
bytes and the protobuf `i64` power). -/
structure GenesisValidator where
  pubKey : Bytes
  power : Int
deriving DecidableEq

/-- The validator map built by `init_chain`'s loop: each entry's power is cast
`as u64` and inserted, so the last occurrence of a duplicate key wins. -/
def genesisSet (reqValidators : List GenesisValidator) : Validators :=
  reqValidators.foldl (fun m v => vsInsert v.pubKey (i64ToU64 v.power) m) []

/-- `ResponseCheckTx` / `ResponseDeliverTx` payload: both responses carry an
empty `data` field on success (`res.set_data(vec![])`). -/
structure TxResponse where
  data : Bytes
deriving DecidableEq

/-- The `PubKey` protobuf message: raw key bytes plus the key-type tag. -/
structure PubKey where
  data : Bytes
  fieldType : String
deriving DecidableEq

/-- One `ValidatorUpdate` protobuf message: public key and `i64` power. -/
structure ValidatorUpdate where
  pubKey : PubKey
  power : Int
deriving DecidableEq

/-- `ResponseEndBlock`: the emitted validator updates. -/
structure ResponseEndBlock where
  validatorUpdates : List ValidatorUpdate
deriving DecidableEq

/-- Embedding of `init_chain`: build the validator map from the request (last
duplicate wins), write it to the store, then call the engine's `initialize`. -/
def init_chain (initHook : InitFn) (s : StoreMap)
    (reqValidators : List GenesisValidator) : Outcome Unit × StoreMap :=
  let validators := genesisSet reqValidators
  let s1 := write_validators s validators
  match initHook s1 with
  | (Except.ok _, s2) => (.ok (), s2)
  | (Except.error e, s2) => (.err e, s2)

/-- Embedding of `check_tx`: decode the transaction, read the validator map
and the height, dispatch `Action::Transaction` through the engine's `run`,
and on success write the (possibly mutated) validator map back. -/
def check_tx {Tx : Type} (decodeTx : Bytes → Option Tx) (run : RunFn Tx)
    (s : StoreMap) (rawTx : Bytes) : Outcome TxResponse × StoreMap :=
  let tx := decodeTx rawTx
  match read_validators s with
  | .panic m => (.panic m, s)
  | .err m => (.err m, s)
  | .ok validators =>
    match read_height s with
    | .panic m => (.panic m, s)
    | .err m => (.err m, s)
    | .ok height =>
      match tx with
      | some tx =>
        match run s (Action.transaction tx) validators height with
        | (Except.ok _, s1, validators1) =>
          (.ok { data := [] }, write_validators s1 validators1)
        | (Except.error e, s1, _) => (.err ("check tx err: " ++ e), s1)
      | none => (.err ("error deserializing tx (check_tx)"), s)

/-- Embedding of `deliver_tx`: the same sequence as `check_tx` against the
block-in-progress store, differing only in the response type and the error
message strings. -/
def deliver_tx {Tx : Type} (decodeTx : Bytes → Option Tx) (run : RunFn Tx)
    (s : StoreMap) (rawTx : Bytes) : Outcome TxResponse × StoreMap :=
  let tx := decodeTx rawTx
  match read_validators s with
  | .panic m => (.panic m, s)
  | .err m => (.err m, s)
  | .ok validators =>
    match read_height s with
    | .panic m => (.panic m, s)
    | .err m => (.err m, s)
    | .ok height =>
      match tx with
      | some tx =>
        match run s (Action.transaction tx) validators height with
        | (Except.ok _, s1, validators1) =>
          (.ok { data := [] }, write_validators s1 validators1)
        | (Except.error _e, s1, _) => (.err ("error executing tx (deliver_tx)"), s1)
      | none => (.err ("error deserializing tx (deliver_tx)"), s)

/-- Embedding of `begin_block`: write the header height (8-byte big-endian,
the `i64` reinterpreted unsigned) immediately, read the validator map,
dispatch `Action::BeginBlock` with the height cast `as u64`, and on success
write the validator map back; a `run` failure propagates as an error. -/
def begin_block {Tx : Type} (run : RunFn Tx) (s : StoreMap)
    (header : BlockHeader) : Outcome Unit × StoreMap :=
  let height := header.height
  let s1 := putStore s heightKey (beBytes 8 (i64ToU64 height))
  match read_validators s1 with
  | .panic m => (.panic m, s1)
  | .err m => (.err m, s1)
  | .ok validators =>
    match run s1 (Action.beginBlock header) validators (i64ToU64 height) with
    | (Except.ok _, s2, validators2) => (.ok (), write_validators s2 validators2)
    | (Except.error e, s2, _) => (.err e, s2)

/-- Body of `end_block`'s loop: the `ValidatorUpdate` built for one entry —
the entry's key bytes, the fixed key type `secp256k1`, and the power cast
`as i64`. -/
def updateOf (kv : Bytes × Nat) : ValidatorUpdate :=
  { pubKey := { data := kv.1, fieldType := ("secp256k1") }, power := u64AsI64 kv.2 }

/-- Embedding of `end_block`: read the validator map and push one
`ValidatorUpdate` per entry onto the update vector; the store is only read. -/
def end_block (s : StoreMap) : Outcome ResponseEndBlock × StoreMap :=
  match read_validators s with
  | .panic m => (.panic m, s)
  | .err m => (.err m, s)
  | .ok validators =>
    let validator_updates := validators.foldl (fun acc kv => acc ++ [updateOf kv]) []
    (.ok { validatorUpdates := validator_updates }, s)

/-! Order lemmas for the lexicographic byte order. -/

theorem bytesLt_irrefl (a : Bytes) : bytesLt a a = false := by
  induction a with
  | nil => rfl
  | cons x xs ih => simp [bytesLt, ih]

theorem bytesLt_asymm : ∀ (a b : Bytes), bytesLt a b = true → bytesLt b a = false
  | [], [] => by simp [bytesLt]
  | [], _ :: _ => by simp [bytesLt]
  | _ :: _, [] => by simp [bytesLt]
  | a :: as, b :: bs => by
    simp only [bytesLt]
    intro h
    by_cases hab : a < b
    · have hba : ¬ b < a := by omega
      simp [hba, hab]
    · by_cases hba : b < a
      · simp [hab, hba] at h
      · have : a = b := by omega
        subst this
        simp [hab] at h ⊢
        exact bytesLt_asymm as bs h

theorem bytesLt_total : ∀ (a b : Bytes), bytesLt a b = false → a ≠ b → bytesLt b a = true
  | [], [] => by simp
  | [], _ :: _ => by simp [bytesLt]
  | _ :: _, [] => by simp [bytesLt]
  | a :: as, b :: bs => by
    simp only [bytesLt]
    intro h hne
    by_cases hab : a < b
    · simp [hab] at h
    · by_cases hba : b < a
      · simp [hba]
      · have : a = b := by omega
        subst this
        simp [hab] at h ⊢
        exact bytesLt_total as bs h (by simpa using hne)

theorem bytesLt_trans : ∀ (a b c : Bytes),
    bytesLt a b = true → bytesLt b c = true → bytesLt a c = true
  | _, [], [] => by simp [bytesLt]
  | _, _ :: _, [] => by simp [bytesLt]
  | [], _, _ :: _ => by simp [bytesLt]
  | a :: as, [], c :: cs => by simp [bytesLt]
  | a :: as, b :: bs, c :: cs => by
    simp only [bytesLt]
    intro h1 h2
    by_cases hab : a < b
    · by_cases hbc : b < c
      · have : a < c := by omega
        simp [this]
      · by_cases hcb : c < b
        · simp [hbc, hcb] at h2
        · have : b = c := by omega
          subst this
          simp [hab]
    · by_cases hba : b < a
      · simp [hab, hba] at h1
      · have : a = b := by omega
        subst this
        simp [hab] at h1
        by_cases hbc : a < c
        · simp [hbc]
        · by_cases hcb : c < a
          · simp [hbc, hcb] at h2
          · have : a = c := by omega
            subst this
            simp [hbc] at h2 ⊢
            exact bytesLt_trans as bs cs h1 h2

/-! Round-trip lemmas for the fixed-width integer codecs. -/

theorem leBytes_length (n x : Nat) : (leBytes n x).length = n := by
  induction n generalizing x with
  | zero => rfl
  | succ n ih => simp [leBytes, ih]

theorem leDecode_leBytes (n x : Nat) (h : x < 256 ^ n) : leDecode (leBytes n x) = x := by
  induction n generalizing x with
  | zero =>
    have : x = 0 := by simpa using h
    simp [this, leBytes, leDecode]
  | succ n ih =>
    have hdiv : x / 256 < 256 ^ n := by
      have : x < 256 ^ n * 256 := by
        calc x < 256 ^ (n + 1) := h
        _ = 256 ^ n * 256 := by rw [pow_succ]
      omega
    simp only [leBytes, leDecode, ih (x / 256) hdiv]
    omega

theorem beBytes_length (n x : Nat) : (beBytes n x).length = n := by
  induction n generalizing x with
  | zero => rfl
  | succ n ih => simp [beBytes, ih]

theorem beDecode_append_last (bs : Bytes) (b : Nat) :
    beDecode (bs ++ [b]) = beDecode bs * 256 + b := by
  simp [beDecode, List.foldl_append]

theorem beDecode_beBytes (n x : Nat) (h : x < 256 ^ n) : beDecode (beBytes n x) = x := by
  induction n generalizing x with
  | zero =>
    have : x = 0 := by simpa using h
    simp [this, beBytes, beDecode]
  | succ n ih =>
    have hdiv : x / 256 < 256 ^ n := by
      have : x < 256 ^ n * 256 := by
        calc x < 256 ^ (n + 1) := h
        _ = 256 ^ n * 256 := by rw [pow_succ]
      omega
    rw [beBytes, beDecode_append_last, ih (x / 256) hdiv]
    omega

theorem readLE8_encode (x : Nat) (rest : Bytes) (h : x < 2 ^ 64) :
    readLE8 (leBytes 8 x ++ rest) = some (x, rest) := by
  have hlen : (leBytes 8 x).length = 8 := leBytes_length 8 x
  have h8 : x < 256 ^ 8 := lt_of_lt_of_le h (by norm_num)
  unfold readLE8
  rw [if_pos (by simp [hlen])]
  rw [List.take_left' hlen, List.drop_left' hlen, leDecode_leBytes 8 x h8]

theorem readRaw_encode (k rest : Bytes) : readRaw k.length (k ++ rest) = some (k, rest) := by
  unfold readRaw
  rw [if_pos (by simp)]
  rw [List.take_left, List.drop_left]

/-! Sorted-map lemmas for `vsInsert` and the entry-list parser. -/

theorem mem_vsInsert (k : Bytes) (v : Nat) (m : Validators) (p : Bytes × Nat)
    (h : p ∈ vsInsert k v m) : p = (k, v) ∨ p ∈ m := by
  induction m with
  | nil => simp [vsInsert] at h; simp [h]
  | cons e rest ih =>
    obtain ⟨k2, v2⟩ := e
    rw [vsInsert] at h
    split at h
    · rcases List.mem_cons.mp h with h1 | h1
      · exact Or.inl h1
      · exact Or.inr h1
    · split at h
      · rcases List.mem_cons.mp h with h1 | h1
        · exact Or.inl h1
        · exact Or.inr (List.mem_cons_of_mem _ h1)
      · rcases List.mem_cons.mp h with h1 | h1
        · exact Or.inr (by simp [h1])
        · rcases ih h1 with h2 | h2
          · exact Or.inl h2
          · exact Or.inr (List.mem_cons_of_mem _ h2)

theorem vsInsert_append (k : Bytes) (v : Nat) (m : Validators)
    (h : ∀ p ∈ m, bytesLt p.1 k = true) : vsInsert k v m = m ++ [(k, v)] := by
  induction m with
  | nil => rfl
  | cons e rest ih =>
    obtain ⟨k2, v2⟩ := e
    have h2 : bytesLt k2 k = true := h (k2, v2) (List.mem_cons_self _ _)
    have hne : ¬ k = k2 := by
      intro he
      rw [he, bytesLt_irrefl] at h2
      exact Bool.false_ne_true h2
    have hnlt : bytesLt k k2 = false := bytesLt_asymm _ _ h2
    rw [vsInsert, hnlt]
    simp only [Bool.false_eq_true, if_false, hne, if_false]
    rw [ih (fun p hp => h p (List.mem_cons_of_mem _ hp))]
    simp

theorem vsSorted_insert (k : Bytes) (v : Nat) (m : Validators)
    (h : List.Pairwise (fun x y => bytesLt x.1 y.1 = true) m) :
    List.Pairwise (fun x y => bytesLt x.1 y.1 = true) (vsInsert k v m) := by
  induction m with
  | nil => simp [vsInsert]
  | cons e rest ih =>
    obtain ⟨k2, v2⟩ := e
    rw [List.pairwise_cons] at h
    obtain ⟨hhead, htail⟩ := h
    rw [vsInsert]
    split
    · rename_i hlt
      rw [List.pairwise_cons]
      constructor
      · intro p hp
        rcases List.mem_cons.mp hp with h1 | h1
        · simp [h1]; exact hlt
        · exact bytesLt_trans _ _ _ hlt (hhead p h1)
      · exact List.Pairwise.cons hhead htail
    · split
      · rename_i hnlt heq
        subst heq
        rw [List.pairwise_cons]
        exact ⟨hhead, htail⟩
      · rename_i hnlt hne
        have hlt2 : bytesLt k2 k = true := by
          apply bytesLt_total k k2 (by simpa using hnlt)
          simpa using hne
        rw [List.pairwise_cons]
        constructor
        · intro p hp
          rcases mem_vsInsert _ _ _ _ hp with h1 | h1
          · simp [h1]; exact hlt2
          · exact hhead p h1
        · exact ih htail

theorem foldl_vsInsert_of_sorted (l : Validators) : ∀ acc : Validators,
    List.Pairwise (fun x y => bytesLt x.1 y.1 = true) (acc ++ l) →
    l.foldl (fun m e => vsInsert e.1 e.2 m) acc = acc ++ l := by
  induction l with
  | nil => intro acc _; simp
  | cons e l ih =>
    intro acc h
    rw [List.foldl_cons]
    have hall : ∀ p ∈ acc, bytesLt p.1 e.1 = true := by
      intro p hp
      exact (List.pairwise_append.mp h).2.2 p hp e (List.mem_cons_self _ _)
    rw [vsInsert_append e.1 e.2 acc hall]
    have hassoc : acc ++ e :: l = (acc ++ [(e.1, e.2)]) ++ l := by simp
    rw [hassoc] at h ⊢
    exact ih (acc ++ [(e.1, e.2)]) h

/-- Well-formedness of a deserializable entry list: every key length and every
power fits in a `u64` (they are a `Vec` length and a `u64` in the source). -/
def EntriesWF (l : List (Bytes × Nat)) : Prop :=
  ∀ e ∈ l, e.1.length < 2 ^ 64 ∧ e.2 < 2 ^ 64

/-- Type invariant of a `BTreeMap<Vec<u8>, u64>` image: strictly ascending
keys, a `usize` entry count, and `u64`-sized lengths and powers. -/
def VSWellFormed (vs : Validators) : Prop :=
  List.Pairwise (fun x y => bytesLt x.1 y.1 = true) vs ∧
  vs.length < 2 ^ 64 ∧ EntriesWF vs

theorem parseEntries_encode (l : List (Bytes × Nat)) : ∀ rest : Bytes, EntriesWF l →
    parseEntries l.length ((l.map serializeEntry).flatten ++ rest) = some (l, rest) := by
  induction l with
  | nil => intro rest _; simp [parseEntries]
  | cons e l ih =>
    intro rest h
    have he : e.1.length < 2 ^ 64 ∧ e.2 < 2 ^ 64 := h e (List.mem_cons_self _ _)
    have hbytes : ((e :: l).map serializeEntry).flatten ++ rest =
        leBytes 8 e.1.length ++ (e.1 ++ (leBytes 8 e.2 ++ ((l.map serializeEntry).flatten ++ rest))) := by
      simp [serializeEntry]
    rw [List.length_cons, hbytes]
    simp only [parseEntries, readLE8_encode e.1.length _ he.1, readRaw_encode e.1 _,
      readLE8_encode e.2 _ he.2, ih rest (fun p hp => h p (List.mem_cons_of_mem _ hp))]

theorem vsDeserialize_vsSerialize (vs : Validators) (h : VSWellFormed vs) :
    vsDeserialize (vsSerialize vs) = some vs := by
  obtain ⟨hs, hlen, hwf⟩ := h
  have hpad : (vs.map serializeEntry).flatten = (vs.map serializeEntry).flatten ++ [] := by simp
  unfold vsSerialize
  rw [hpad]
  simp only [vsDeserialize, readLE8_encode vs.length _ hlen, parseEntries_encode vs [] hwf]
  rw [foldl_vsInsert_of_sorted vs [] (by simpa using hs)]
  simp

/-! Helper lemmas about the update loop, the integer casts and map lookup. -/

theorem foldl_push_eq_map {α β : Type} (f : α → β) (l : List α) : ∀ acc : List β,
    l.foldl (fun acc2 x => acc2 ++ [f x]) acc = acc ++ l.map f := by
  induction l with
  | nil => intro acc; simp
  | cons x l ih => intro acc; rw [List.foldl_cons, ih]; simp

theorem end_block_ok (s : StoreMap) (vs : Validators)
    (h : read_validators s = Outcome.ok vs) :
    end_block s = (Outcome.ok { validatorUpdates := vs.map updateOf }, s) := by
  simp only [end_block, h, foldl_push_eq_map updateOf vs []]
  simp

theorem i64ToU64_lt (x : Int) : i64ToU64 x < 2 ^ 64 := by
  unfold i64ToU64
  have h1 : x % (2 : Int) ^ 64 < (2 : Int) ^ 64 := Int.emod_lt_of_pos x (by norm_num)
  have h2 : 0 ≤ x % (2 : Int) ^ 64 := Int.emod_nonneg x (by norm_num)
  omega

theorem u64AsI64_i64ToU64 (x : Int) (h1 : -(2 ^ 63) ≤ x) (h2 : x < 2 ^ 63) :
    u64AsI64 (i64ToU64 x) = x := by
  unfold u64AsI64 i64ToU64
  have h3 : 0 ≤ x % (2 : Int) ^ 64 := Int.emod_nonneg x (by norm_num)
  have h4 : x % (2 : Int) ^ 64 < (2 : Int) ^ 64 := Int.emod_lt_of_pos x (by norm_num)
  have h5 : x % (2 : Int) ^ 64 = x ∨ x % (2 : Int) ^ 64 = x + 2 ^ 64 := by omega
  split <;> omega

theorem vsLookup_vsInsert (k k2 : Bytes) (v : Nat) (m : Validators) :
    vsLookup k (vsInsert k2 v m) = if k = k2 then some v else vsLookup k m := by
  induction m with
  | nil => simp [vsInsert, vsLookup]
  | cons e rest ih =>
    obtain ⟨k3, v3⟩ := e
    rw [vsInsert]
    split
    · simp [vsLookup]
    · split
      · rename_i hq
        subst hq
        by_cases hk : k = k2 <;> simp [vsLookup, hk]
      · rename_i hnlt hne
        by_cases hk3 : k = k3
        · have hk : ¬ k = k2 := by
            intro hk
            exact hne (hk ▸ hk3)
          have hk32 : ¬ k3 = k2 := by
            rw [← hk3]
            exact hk
          simp [vsLookup, hk3, hk, hk32]
        · simp [vsLookup, hk3, ih]

theorem vsLookup_foldl_vsInsert (k : Bytes) (pw : GenesisValidator → Nat)
    (l : List GenesisValidator) : ∀ acc : Validators,
    vsLookup k (l.foldl (fun m v => vsInsert v.pubKey (pw v) m) acc) =
      match l.reverse.find? (fun v => v.pubKey == k) with
      | some v => some (pw v)
      | none => vsLookup k acc := by
  induction l using List.reverseRecOn with
  | nil => intro acc; simp
  | append_singleton l x ih =>
    intro acc
    rw [List.foldl_append, List.foldl_cons, List.foldl_nil, vsLookup_vsInsert]
    rw [List.reverse_append]
    simp only [List.reverse_cons, List.reverse_nil, List.nil_append, List.singleton_append,
      List.find?_cons]
    by_cases hk : k = x.pubKey
    · simp [hk, if_pos rfl]
    · have hne : (x.pubKey == k) = false := by
        simp
        intro hh
        exact hk hh.symm
      simp [hk, hne, ih acc]

/-! Well-formedness of the genesis map and store access lemmas. -/

theorem sorted_foldl_vsInsert (pw : GenesisValidator → Nat) (l : List GenesisValidator) :
    ∀ acc : Validators, List.Pairwise (fun x y => bytesLt x.1 y.1 = true) acc →
    List.Pairwise (fun x y => bytesLt x.1 y.1 = true)
      (l.foldl (fun m v => vsInsert v.pubKey (pw v) m) acc) := by
  induction l with
  | nil => intro acc h; simpa using h
  | cons v l ih =>
    intro acc h
    rw [List.foldl_cons]
    exact ih _ (vsSorted_insert v.pubKey (pw v) acc h)

theorem mem_foldl_vsInsert (pw : GenesisValidator → Nat) (l : List GenesisValidator)
    (p : Bytes × Nat) : ∀ acc : Validators,
    p ∈ l.foldl (fun m v => vsInsert v.pubKey (pw v) m) acc →
    p ∈ acc ∨ ∃ g ∈ l, p = (g.pubKey, pw g) := by
  induction l with
  | nil => intro acc h; exact Or.inl (by simpa using h)
  | cons v l ih =>
    intro acc h
    rw [List.foldl_cons] at h
    rcases ih _ h with h1 | h1
    · rcases mem_vsInsert _ _ _ _ h1 with h2 | h2
      · exact Or.inr ⟨v, List.mem_cons_self _ _, h2⟩
      · exact Or.inl h2
    · obtain ⟨g, hg, hp⟩ := h1
      exact Or.inr ⟨g, List.mem_cons_of_mem _ hg, hp⟩

theorem length_vsInsert (k : Bytes) (v : Nat) (m : Validators) :
    (vsInsert k v m).length ≤ m.length + 1 := by
  induction m with
  | nil => simp [vsInsert]
  | cons e rest ih =>
    obtain ⟨k2, v2⟩ := e
    rw [vsInsert]
    split
    · simp
    · split
      · simp
      · simpa using Nat.succ_le_succ ih

theorem length_foldl_vsInsert (pw : GenesisValidator → Nat) (l : List GenesisValidator) :
    ∀ acc : Validators,
    (l.foldl (fun m v => vsInsert v.pubKey (pw v) m) acc).length ≤ acc.length + l.length := by
  induction l with
  | nil => intro acc; simp
  | cons v l ih =>
    intro acc
    rw [List.foldl_cons]
    calc (l.foldl (fun m v => vsInsert v.pubKey (pw v) m) (vsInsert v.pubKey (pw v) acc)).length
        ≤ (vsInsert v.pubKey (pw v) acc).length + l.length := ih _
    _ ≤ acc.length + 1 + l.length := by
        have := length_vsInsert v.pubKey (pw v) acc
        omega
    _ = acc.length + (v :: l).length := by simp; omega

theorem genesisSet_WF (entries : List GenesisValidator)
    (hkeys : ∀ v ∈ entries, v.pubKey.length < 2 ^ 64)
    (hlen : entries.length < 2 ^ 64) :
    VSWellFormed (genesisSet entries) := by
  refine ⟨sorted_foldl_vsInsert _ entries [] (by simp), ?_, ?_⟩
  · have := length_foldl_vsInsert (fun v => i64ToU64 v.power) entries []
    unfold genesisSet
    simp at this
    omega
  · intro e he
    rcases mem_foldl_vsInsert _ entries e [] he with h1 | h1
    · simp at h1
    · obtain ⟨g, hg, hp⟩ := h1
      subst hp
      exact ⟨hkeys g hg, i64ToU64_lt g.power⟩

theorem getStore_putStore_same (s : StoreMap) (k v : Bytes) :
    getStore (putStore s k v) k = some v := by
  simp [getStore, putStore]

theorem getStore_putStore_other (s : StoreMap) (k v k2 : Bytes) (h : ¬ k2 = k) :
    getStore (putStore s k v) k2 = getStore s k2 := by
  simp [getStore, putStore, h]

theorem heightKey_ne_validatorsKey : ¬ heightKey = validatorsKey := by decide

theorem read_validators_write (s : StoreMap) (vs : Validators) (h : VSWellFormed vs) :
    read_validators (write_validators s vs) = Outcome.ok vs := by
  simp only [read_validators, write_validators, getStore_putStore_same,
    vsDeserialize_vsSerialize vs h]

theorem read_height_of_get (s : StoreMap) (H : Nat)
    (hget : getStore s heightKey = some (beBytes 8 H)) (h : H < 2 ^ 64) :
    read_height s = Outcome.ok H := by
  simp only [read_height, hget]
  rw [if_pos (beBytes_length 8 H), beDecode_beBytes 8 H (lt_of_lt_of_le h (by norm_num))]

/-- Execution engine stub that accepts every action and leaves the store and
the validator set untouched; used to instantiate the engine parameters in
concrete witnesses. -/
def runNop (Tx : Type) : RunFn Tx := fun st _ v _ => (Except.ok (), st, v)

/-- Initialization hook stub that succeeds and leaves the store untouched. -/
def initNop : InitFn := fun st => (Except.ok (), st)

/-- Probe initialization hook: errors unless the store already holds the
expected serialized validator set, so an accepting `init_chain` proves the
set was written before the hook ran. -/
def initProbe (expected : Validators) : InitFn := fun st =>
  (if getStore st validatorsKey = some (vsSerialize expected) then Except.ok ()
   else Except.error ("validators not yet written"), st)

/-- Probe execution engine: errors unless the store already holds the
expected big-endian height and the height argument matches, so an accepting
`begin_block` proves the height was written before `run` and passed to it. -/
def runProbe (expectedHeight : Nat) (Tx : Type) : RunFn Tx := fun st _ v h =>
  (if getStore st heightKey = some (beBytes 8 expectedHeight) ∧ h = expectedHeight
   then Except.ok () else Except.error ("height not yet written"), st, v)

/-! Claim theorems. -/

/-- C1: for every stored validator set, `end_block` reads the full set and
returns exactly one `ValidatorUpdate` per entry in it, carrying that entry's
public-key bytes, its stored power (as the `i64` the protobuf field holds),
and the fixed key-type tag `secp256k1`, unconditionally — in particular
regardless of whether the entry's power changed since the previous block. -/
theorem C1_end_block_emits_full_set (s : StoreMap) (vs : Validators)
    (h : read_validators s = Outcome.ok vs) :
    ∃ resp : ResponseEndBlock, (end_block s).1 = Outcome.ok resp ∧
      resp.validatorUpdates.length = vs.length ∧
      ∀ i : Nat, ∀ hi : i < vs.length, ∀ hi2 : i < resp.validatorUpdates.length,
        (resp.validatorUpdates.get ⟨i, hi2⟩).pubKey.data = (vs.get ⟨i, hi⟩).1 ∧
        (resp.validatorUpdates.get ⟨i, hi2⟩).pubKey.fieldType = "secp256k1" ∧
        (resp.validatorUpdates.get ⟨i, hi2⟩).power = u64AsI64 (vs.get ⟨i, hi⟩).2 := by
  refine ⟨{ validatorUpdates := vs.map updateOf }, ?_, by simp, ?_⟩
  · rw [end_block_ok s vs h]
  · intro i hi hi2
    simp [List.get_eq_getElem, List.getElem_map, updateOf]

/-- Witness for C1 at a concrete one-entry validator store. -/
theorem C1_end_block_emits_full_set_witness :
    ∃ resp : ResponseEndBlock,
      (end_block (write_validators emptyStore [([1], 5)])).1 = Outcome.ok resp ∧
      resp.validatorUpdates.length = ([([1], 5)] : Validators).length ∧
      ∀ i : Nat, ∀ hi : i < ([([1], 5)] : Validators).length,
        ∀ hi2 : i < resp.validatorUpdates.length,
        (resp.validatorUpdates.get ⟨i, hi2⟩).pubKey.data =
          (([([1], 5)] : Validators).get ⟨i, hi⟩).1 ∧
        (resp.validatorUpdates.get ⟨i, hi2⟩).pubKey.fieldType = "secp256k1" ∧
        (resp.validatorUpdates.get ⟨i, hi2⟩).power =
          u64AsI64 ((([([1], 5)] : Validators).get ⟨i, hi⟩).2) :=
  C1_end_block_emits_full_set (write_validators emptyStore [([1], 5)]) [([1], 5)] (by decide)

/-- C10: the power field emitted by `end_block` is the stored `u64` power
reinterpreted as a signed 64-bit integer (`power as i64`); it equals the
stored power exactly iff the power is below `2^63`, and the consensus engine
receives a negative value otherwise. -/
theorem C10_end_block_power_cast (s : StoreMap) (vs : Validators)
    (h : read_validators s = Outcome.ok vs) (i : Nat) (hi : i < vs.length)
    (hp : (vs.get ⟨i, hi⟩).2 < 2 ^ 64) :
    ∃ resp : ResponseEndBlock, (end_block s).1 = Outcome.ok resp ∧
      ∀ hi2 : i < resp.validatorUpdates.length,
        (resp.validatorUpdates.get ⟨i, hi2⟩).power = u64AsI64 (vs.get ⟨i, hi⟩).2 ∧
        ((resp.validatorUpdates.get ⟨i, hi2⟩).power = ((vs.get ⟨i, hi⟩).2 : Int) ↔
          (vs.get ⟨i, hi⟩).2 < 2 ^ 63) ∧
        (2 ^ 63 ≤ (vs.get ⟨i, hi⟩).2 → (resp.validatorUpdates.get ⟨i, hi2⟩).power < 0) := by
  refine ⟨{ validatorUpdates := vs.map updateOf }, ?_, ?_⟩
  · rw [end_block_ok s vs h]
  · intro hi2
    have hget : ({ validatorUpdates := vs.map updateOf } :
        ResponseEndBlock).validatorUpdates.get ⟨i, hi2⟩ = updateOf (vs.get ⟨i, hi⟩) := by
      simp [List.get_eq_getElem, List.getElem_map]
    have hpw : (updateOf (vs.get ⟨i, hi⟩)).power = u64AsI64 (vs.get ⟨i, hi⟩).2 := rfl
    rw [hget, hpw]
    unfold u64AsI64
    refine ⟨rfl, ?_, ?_⟩
    · split <;> rename_i hcmp <;> constructor <;> intro hgoal <;> omega
    · intro hge
      split <;> rename_i hcmp <;> omega

/-- Witness for C10 at a stored power of `2^63` (which wraps negative). -/
theorem C10_end_block_power_cast_witness :
    ∃ resp : ResponseEndBlock,
      (end_block (write_validators emptyStore [([1], 2 ^ 63)])).1 = Outcome.ok resp ∧
      ∀ hi2 : 0 < resp.validatorUpdates.length,
        (resp.validatorUpdates.get ⟨0, hi2⟩).power =
          u64AsI64 ((([([1], 2 ^ 63)] : Validators).get ⟨0, by decide⟩).2) ∧
        ((resp.validatorUpdates.get ⟨0, hi2⟩).power =
            (((([([1], 2 ^ 63)] : Validators).get ⟨0, by decide⟩).2 : Nat) : Int) ↔
          (([([1], 2 ^ 63)] : Validators).get ⟨0, by decide⟩).2 < 2 ^ 63) ∧
        (2 ^ 63 ≤ (([([1], 2 ^ 63)] : Validators).get ⟨0, by decide⟩).2 →
          (resp.validatorUpdates.get ⟨0, hi2⟩).power < 0) :=
  C10_end_block_power_cast (write_validators emptyStore [([1], 2 ^ 63)]) [([1], 2 ^ 63)]
    (by decide) 0 (by decide) (by decide)

/-- C8: `end_block` never mutates the store, so calling it twice in
succession with no intervening lifecycle call returns the same
validator-update response both times. -/
theorem C8_end_block_repeatable (s : StoreMap) :
    (end_block s).2 = s ∧ (end_block (end_block s).2).1 = (end_block s).1 := by
  have hs : (end_block s).2 = s := by
    cases h : read_validators s <;> simp [end_block, h]
  exact ⟨hs, by rw [hs]⟩

/-- C2: for every store state and raw transaction bytes, CheckTx and
DeliverTx perform the identical state transition — same decode, same
dispatch through the engine's `run`, same validator-set write-back — and
succeed, error, or panic on exactly the same inputs, agreeing on the accept
payload and differing only in the response and error-message wrappers. -/
theorem C2_check_deliver_equiv {Tx : Type} (decodeTx : Bytes → Option Tx)
    (run : RunFn Tx) (s : StoreMap) (rawTx : Bytes) :
    (check_tx decodeTx run s rawTx).2 = (deliver_tx decodeTx run s rawTx).2 ∧
    (check_tx decodeTx run s rawTx).1.isOk = (deliver_tx decodeTx run s rawTx).1.isOk ∧
    (check_tx decodeTx run s rawTx).1.isPanic = (deliver_tx decodeTx run s rawTx).1.isPanic ∧
    (∀ r, (check_tx decodeTx run s rawTx).1 = Outcome.ok r ↔
      (deliver_tx decodeTx run s rawTx).1 = Outcome.ok r) := by
  cases h1 : read_validators s with
  | panic m => simp [check_tx, deliver_tx, h1, Outcome.isOk, Outcome.isPanic]
  | err m => simp [check_tx, deliver_tx, h1, Outcome.isOk, Outcome.isPanic]
  | ok v =>
    cases h2 : read_height s with
    | panic m => simp [check_tx, deliver_tx, h1, h2, Outcome.isOk, Outcome.isPanic]
    | err m => simp [check_tx, deliver_tx, h1, h2, Outcome.isOk, Outcome.isPanic]
    | ok hh =>
      cases h3 : decodeTx rawTx with
      | none => simp [check_tx, deliver_tx, h1, h2, h3, Outcome.isOk, Outcome.isPanic]
      | some tx =>
        rcases h4 : run s (Action.transaction tx) v hh with ⟨res, s1, v1⟩
        cases res <;>
          simp [check_tx, deliver_tx, h1, h2, h3, h4, Outcome.isOk, Outcome.isPanic]

/-- C3: a CheckTx call whose bytes do not decode into a transaction fails
(never succeeds), and leaves the entire store — in particular the validators
and height entries — unchanged: no store mutation happens before or after
the decode failure. -/
theorem C3_check_tx_decode_failure {Tx : Type} (decodeTx : Bytes → Option Tx)
    (run : RunFn Tx) (s : StoreMap) (rawTx : Bytes) (h : decodeTx rawTx = none) :
    (check_tx decodeTx run s rawTx).1.isOk = false ∧
    (check_tx decodeTx run s rawTx).2 = s ∧
    getStore (check_tx decodeTx run s rawTx).2 validatorsKey = getStore s validatorsKey ∧
    getStore (check_tx decodeTx run s rawTx).2 heightKey = getStore s heightKey := by
  have hmain : (check_tx decodeTx run s rawTx).1.isOk = false ∧
      (check_tx decodeTx run s rawTx).2 = s := by
    cases h1 : read_validators s with
    | panic m => simp [check_tx, h, h1, Outcome.isOk]
    | err m => simp [check_tx, h, h1, Outcome.isOk]
    | ok v =>
      cases h2 : read_height s with
      | panic m => simp [check_tx, h, h1, h2, Outcome.isOk]
      | err m => simp [check_tx, h, h1, h2, Outcome.isOk]
      | ok hh => simp [check_tx, h, h1, h2, Outcome.isOk]
  exact ⟨hmain.1, hmain.2, by rw [hmain.2], by rw [hmain.2]⟩

/-- Witness for C3 with an always-failing decoder on the empty store. -/
theorem C3_check_tx_decode_failure_witness :
    (check_tx (fun _ => (none : Option Unit)) (runNop Unit) emptyStore []).1.isOk = false ∧
    (check_tx (fun _ => (none : Option Unit)) (runNop Unit) emptyStore []).2 = emptyStore ∧
    getStore (check_tx (fun _ => (none : Option Unit)) (runNop Unit) emptyStore []).2
      validatorsKey = getStore emptyStore validatorsKey ∧
    getStore (check_tx (fun _ => (none : Option Unit)) (runNop Unit) emptyStore []).2
      heightKey = getStore emptyStore heightKey :=
  C3_check_tx_decode_failure (fun _ => none) (runNop Unit) emptyStore [] rfl

/-- C4 counterexample: with the height entry absent, `read_height` does not
return an error value at all — it panics (aborting the process), so the
claimed returned StoreCorruption error does not occur. -/
theorem C4_counterexample :
    (read_height emptyStore).isErr = false ∧
    read_height emptyStore = Outcome.panic ("called Option::unwrap on a None value") := by
  exact ⟨rfl, rfl⟩

/-- C4 amended: when the height entry is absent or its value is not exactly
8 bytes, reading the height crashes with a panic (`unwrap` /
`copy_from_slice`), not a returned error value; when the value is exactly 8
bytes it is decoded as a big-endian unsigned 64-bit integer. -/
theorem C4_read_height_amended (s : StoreMap) :
    ((getStore s heightKey = none ∨
        (∃ bs, getStore s heightKey = some bs ∧ bs.length ≠ 8)) →
      (read_height s).isPanic = true ∧ (read_height s).isErr = false) ∧
    (∀ bs, getStore s heightKey = some bs → bs.length = 8 →
      read_height s = Outcome.ok (beDecode bs)) := by
  constructor
  · rintro (hno | ⟨bs, hbs, hlen⟩)
    · simp [read_height, hno, Outcome.isPanic, Outcome.isErr]
    · simp [read_height, hbs, hlen, Outcome.isPanic, Outcome.isErr]
  · intro bs hbs hlen
    simp [read_height, hbs, hlen]

/-- Witness for C4 amended: an absent entry panics; a present 8-byte entry
decodes big-endian. -/
theorem C4_read_height_amended_witness :
    ((read_height emptyStore).isPanic = true ∧ (read_height emptyStore).isErr = false) ∧
    read_height (putStore emptyStore heightKey (beBytes 8 3)) =
      Outcome.ok (beDecode (beBytes 8 3)) :=
  ⟨(C4_read_height_amended emptyStore).1 (Or.inl rfl),
   (C4_read_height_amended (putStore emptyStore heightKey (beBytes 8 3))).2
     (beBytes 8 3) (getStore_putStore_same _ _ _) (by decide)⟩

/-- C7: deserializing the deterministic serialization of any well-formed
validator set yields the set again, both as raw byte functions and through
the store (`read_validators` after `write_validators`). -/
theorem C7_serialize_roundtrip (vs : Validators) (s : StoreMap) (h : VSWellFormed vs) :
    vsDeserialize (vsSerialize vs) = some vs ∧
    read_validators (write_validators s vs) = Outcome.ok vs :=
  ⟨vsDeserialize_vsSerialize vs h, read_validators_write s vs h⟩

/-- Witness for C7 at a concrete two-entry validator set. -/
theorem C7_serialize_roundtrip_witness :
    vsDeserialize (vsSerialize [([1], 5), ([2], 7)]) = some [([1], 5), ([2], 7)] ∧
    read_validators (write_validators emptyStore [([1], 5), ([2], 7)]) =
      Outcome.ok [([1], 5), ([2], 7)] :=
  C7_serialize_roundtrip [([1], 5), ([2], 7)] emptyStore
    (by unfold VSWellFormed EntriesWF; refine ⟨by decide, by decide, by decide⟩)

/-- C9 counterexample: `init_chain` performs no validation of genesis
validator entries — a malformed entry (empty public key, negative power) is
accepted and the call succeeds, so no GenesisValidatorError failure arises. -/
theorem C9_counterexample :
    (init_chain initNop emptyStore [{ pubKey := [], power := -1 }]).1 = Outcome.ok () := by
  rfl

/-- C9 amended: InitChain never fails with a genesis-validator error; every
entry is accepted (key bytes and power inserted as-is, the power cast
`as u64`), and the call succeeds whenever the engine's initialize hook
succeeds — no lifecycle call produces a GenesisValidatorError. -/
theorem C9_init_chain_accepts_all (initHook : InitFn) (s : StoreMap)
    (entries : List GenesisValidator)
    (hinit : ∀ st, (initHook st).1 = Except.ok ()) :
    (init_chain initHook s entries).1 = Outcome.ok () := by
  simp only [init_chain]
  rcases h1 : initHook (write_validators s (genesisSet entries)) with ⟨res, s2⟩
  have h2 := hinit (write_validators s (genesisSet entries))
  rw [h1] at h2
  cases res with
  | ok u => simp
  | error e => simp at h2

/-- Witness for C9 amended with the no-op initialize hook. -/
theorem C9_init_chain_accepts_all_witness :
    (init_chain initNop emptyStore [{ pubKey := [1, 2], power := 7 }]).1 = Outcome.ok () :=
  C9_init_chain_accepts_all initNop emptyStore [{ pubKey := [1, 2], power := 7 }]
    (fun _ => rfl)

/-! Helpers for the block-begin height claim. -/

theorem read_validators_not_err (s : StoreMap) (m : String) :
    ¬ read_validators s = Outcome.err m := by
  unfold read_validators
  cases getStore s validatorsKey with
  | none => simp
  | some bs => cases h2 : vsDeserialize bs <;> simp [h2]

theorem i64ToU64_of_nonneg (x : Int) (h0 : 0 ≤ x) (h1 : x < 2 ^ 64) :
    i64ToU64 x = x.toNat := by
  unfold i64ToU64
  rw [Int.emod_eq_of_lt h0 h1]

/-- Probe engine for the transaction path: errors unless the height argument
passed to `run` matches the expected height, so an accepting call proves the
height context the transaction dispatch received. -/
def runHeightCheck (expectedHeight : Nat) (Tx : Type) : RunFn Tx := fun st _ v h =>
  (if h = expectedHeight then Except.ok ()
   else Except.error ("unexpected height argument"), st, v)

theorem begin_block_height_entry {Tx : Type} (run : RunFn Tx) (s : StoreMap)
    (header : BlockHeader)
    (hrun : ∀ st a v hh, getStore ((run st a v hh).2.1) heightKey = getStore st heightKey) :
    getStore (begin_block run s header).2 heightKey =
      some (beBytes 8 (i64ToU64 header.height)) := by
  cases h1 : read_validators (putStore s heightKey (beBytes 8 (i64ToU64 header.height))) with
  | panic m => simp [begin_block, h1, getStore_putStore_same]
  | err m => exact absurd h1 (read_validators_not_err _ m)
  | ok v =>
    rcases h2 : run (putStore s heightKey (beBytes 8 (i64ToU64 header.height)))
        (Action.beginBlock header) v (i64ToU64 header.height) with ⟨res, s2, v2⟩
    have h3 : getStore s2 heightKey = some (beBytes 8 (i64ToU64 header.height)) := by
      have h4 := hrun (putStore s heightKey (beBytes 8 (i64ToU64 header.height)))
        (Action.beginBlock header) v (i64ToU64 header.height)
      rw [h2] at h4
      simpa [getStore_putStore_same] using h4
    cases res with
    | ok u =>
      simp only [begin_block, h1, h2]
      rw [write_validators,
        getStore_putStore_other s2 validatorsKey (vsSerialize v2) heightKey
          heightKey_ne_validatorsKey, h3]
    | error e => simp [begin_block, h1, h2, h3]

theorem begin_block_probe_accepts {Tx : Type} (s : StoreMap) (header : BlockHeader) :
    (begin_block (runProbe (i64ToU64 header.height) Tx) s header).1.isErr = false := by
  cases h1 : read_validators (putStore s heightKey (beBytes 8 (i64ToU64 header.height))) with
  | panic m => simp [begin_block, h1, Outcome.isErr]
  | err m => exact absurd h1 (read_validators_not_err _ m)
  | ok v => simp [begin_block, h1, runProbe, getStore_putStore_same, Outcome.isErr]

theorem check_tx_height_context (s : StoreMap) (H : Nat) (hH : H < 2 ^ 64)
    (hget : getStore s heightKey = some (beBytes 8 H)) (rawTx : Bytes) :
    (check_tx (fun _ => some ()) (runHeightCheck H Unit) s rawTx).1.isErr = false := by
  cases h1 : read_validators s with
  | panic m => simp [check_tx, h1, Outcome.isErr]
  | err m => exact absurd h1 (read_validators_not_err s m)
  | ok v =>
    have h2 := read_height_of_get s H hget hH
    simp [check_tx, h1, h2, runHeightCheck, Outcome.isErr]

/-- C6: `begin_block` writes the 8-byte big-endian height entry before
invoking the execution engine's `run` — witnessed by a probe engine that
accepts only when it already observes the written height and receives the
header height as its argument — and a subsequent CheckTx against the
resulting store reads back exactly that height as its current-height
context (witnessed by a probe engine on the transaction path). -/
theorem C6_begin_block_writes_height {Tx : Type} (run : RunFn Tx) (s : StoreMap)
    (header : BlockHeader) (h0 : 0 ≤ header.height) (h1 : header.height < 2 ^ 63)
    (hrun : ∀ st a v hh, getStore ((run st a v hh).2.1) heightKey = getStore st heightKey) :
    getStore (begin_block run s header).2 heightKey =
      some (beBytes 8 header.height.toNat) ∧
    read_height (begin_block run s header).2 = Outcome.ok header.height.toNat ∧
    (begin_block (runProbe header.height.toNat Tx) s header).1.isErr = false ∧
    (∀ rawTx, (check_tx (fun _ => some ()) (runHeightCheck header.height.toNat Unit)
      (begin_block run s header).2 rawTx).1.isErr = false) := by
  have hiu : i64ToU64 header.height = header.height.toNat :=
    i64ToU64_of_nonneg header.height h0 (by omega)
  have hH : header.height.toNat < 2 ^ 64 := by omega
  have ha : getStore (begin_block run s header).2 heightKey =
      some (beBytes 8 header.height.toNat) := by
    rw [← hiu]
    exact begin_block_height_entry run s header hrun
  refine ⟨ha, read_height_of_get _ _ ha hH, ?_,
    fun rawTx => check_tx_height_context _ _ hH ha rawTx⟩
  rw [← hiu]
  exact begin_block_probe_accepts s header

/-- Witness for C6 at header height 5 with the no-op engine. -/
theorem C6_begin_block_writes_height_witness :
    getStore (begin_block (runNop Unit) emptyStore { height := 5 }).2 heightKey =
      some (beBytes 8 ((5 : Int)).toNat) ∧
    read_height (begin_block (runNop Unit) emptyStore { height := 5 }).2 =
      Outcome.ok ((5 : Int)).toNat ∧
    (begin_block (runProbe ((5 : Int)).toNat Unit) emptyStore { height := 5 }).1.isErr =
      false ∧
    (∀ rawTx, (check_tx (fun _ => some ()) (runHeightCheck ((5 : Int)).toNat Unit)
      (begin_block (runNop Unit) emptyStore { height := 5 }).2 rawTx).1.isErr = false) :=
  C6_begin_block_writes_height (runNop Unit) emptyStore { height := 5 } (by decide)
    (by decide) (fun _ _ _ _ => rfl)

/-- C5: InitChain builds the validator set with last-entry-wins semantics,
writes it to the store before invoking the execution engine's initialize
hook (witnessed by a probe hook that accepts only if the serialized set is
already present), and an immediately following EndBlock — with no
intervening transactions — emits exactly one update per genesis key,
carrying exactly the genesis power (the i64-u64-i64 cast chain is the
identity on the i64 range). -/
theorem C5_init_chain_then_end_block (initHook : InitFn) (s : StoreMap)
    (entries : List GenesisValidator)
    (hkeys : ∀ v ∈ entries, v.pubKey.length < 2 ^ 64)
    (hcount : entries.length < 2 ^ 64)
    (hpow : ∀ v ∈ entries, -(2 ^ 63) ≤ v.power ∧ v.power < 2 ^ 63)
    (hinit : ∀ st, getStore ((initHook st).2) validatorsKey = getStore st validatorsKey) :
    (init_chain (initProbe (genesisSet entries)) s entries).1 = Outcome.ok () ∧
    (∀ k, vsLookup k (genesisSet entries) =
      match entries.reverse.find? (fun v => v.pubKey == k) with
      | some v => some (i64ToU64 v.power)
      | none => none) ∧
    (end_block (init_chain initHook s entries).2).1 =
      Outcome.ok { validatorUpdates := (genesisSet entries).map updateOf } ∧
    (∀ k v, entries.reverse.find? (fun w => w.pubKey == k) = some v →
      u64AsI64 (i64ToU64 v.power) = v.power) := by
  have hWF : VSWellFormed (genesisSet entries) := genesisSet_WF entries hkeys hcount
  refine ⟨?_, ?_, ?_, ?_⟩
  · have hcond : getStore (write_validators s (genesisSet entries)) validatorsKey =
        some (vsSerialize (genesisSet entries)) := getStore_putStore_same _ _ _
    simp [init_chain, initProbe, hcond]
  · intro k
    have hfold := vsLookup_foldl_vsInsert k (fun v => i64ToU64 v.power) entries []
    simpa [genesisSet, vsLookup] using hfold
  · rcases h1 : initHook (write_validators s (genesisSet entries)) with ⟨res, s2⟩
    have hget : getStore s2 validatorsKey = some (vsSerialize (genesisSet entries)) := by
      have h4 := hinit (write_validators s (genesisSet entries))
      rw [h1] at h4
      simpa [write_validators, getStore_putStore_same] using h4
    have hrv : read_validators s2 = Outcome.ok (genesisSet entries) := by
      simp only [read_validators, hget, vsDeserialize_vsSerialize _ hWF]
    have hstore : (init_chain initHook s entries).2 = s2 := by
      simp only [init_chain, h1]
      cases res <;> simp
    rw [hstore, end_block_ok s2 _ hrv]
  · intro k v hfind
    have hv : v ∈ entries := List.mem_reverse.mp (List.mem_of_find?_eq_some hfind)
    exact u64AsI64_i64ToU64 v.power (hpow v hv).1 (hpow v hv).2

/-- Witness for C5 at the spec's example genesis list `[(pk1,10),(pk2,5)]`. -/
theorem C5_init_chain_then_end_block_witness :
    (init_chain (initProbe (genesisSet [⟨[1], 10⟩, ⟨[2], 5⟩])) emptyStore
      [⟨[1], 10⟩, ⟨[2], 5⟩]).1 = Outcome.ok () ∧
    (∀ k, vsLookup k (genesisSet [⟨[1], 10⟩, ⟨[2], 5⟩]) =
      match ([⟨[1], 10⟩, ⟨[2], 5⟩] : List GenesisValidator).reverse.find?
          (fun v => v.pubKey == k) with
      | some v => some (i64ToU64 v.power)
      | none => none) ∧
    (end_block (init_chain initNop emptyStore [⟨[1], 10⟩, ⟨[2], 5⟩]).2).1 =
      Outcome.ok { validatorUpdates := (genesisSet [⟨[1], 10⟩, ⟨[2], 5⟩]).map updateOf } ∧
    (∀ k v, ([⟨[1], 10⟩, ⟨[2], 5⟩] : List GenesisValidator).reverse.find?
        (fun w => w.pubKey == k) = some v →
      u64AsI64 (i64ToU64 v.power) = v.power) :=
  C5_init_chain_then_end_block initNop emptyStore [⟨[1], 10⟩, ⟨[2], 5⟩]
    (by decide) (by decide) (by decide) (fun _ => rfl)

end NomicAbci
